import Mathlib

set_option autoImplicit false

namespace VoiceChanger

/-! Shallow embedding of the audio utilities (src/utils/audioUtils.ts) and of
the playback scheduler of the live-session hook (src/hooks/useGeminiLive.ts).

Modelling conventions: JS numbers are exact rationals (the quantities here
are sums, products and divisions of small values, and the properties under
study are arithmetic, not float-rounding, properties); JS strings are lists
of character codes; assignment into an Int16Array performs ToInt16
(truncation toward zero followed by a two of-complement wrap); code that
throws is modelled with Option, a thrown exception being none. -/

/-- JS truncation toward zero, the integer-conversion step of ToInt16. -/
def jsTrunc (q : ℚ) : ℤ := if q < 0 then ⌈q⌉ else ⌊q⌋

/-- JS ToInt16: truncate toward zero, then wrap into [-32768, 32767].
The wrap is expressed with emod, whose result lies in [0, 65536). -/
def toInt16 (q : ℚ) : ℤ := (jsTrunc q + 32768) % 65536 - 32768

/-- JS logical-or specialised to numbers: 0 (falsy) selects the second
operand. An out-of-bounds array read yields undefined, which is also falsy
and therefore behaves exactly like a 0 first operand in the chains below. -/
def jsOr (a b : ℚ) : ℚ := if a = 0 then b else a

/-! Base64 (the platform btoa and atob used by arrayBufferToBase64 and
decodeBase64), modelled on lists of character codes. -/

/-- Character codes of the base64 alphabet: A-Z, a-z, 0-9, plus, slash. -/
def b64Alphabet : List ℕ :=
  (List.range 26).map (fun i => 65 + i) ++ (List.range 26).map (fun i => 97 + i) ++
    (List.range 10).map (fun i => 48 + i) ++ [43, 47]

/-- Character code of the base64 digit for a sextet. -/
def b64Char (n : ℕ) : ℕ := b64Alphabet.getD n 0

/-- Sextet value of a base64 digit (only applied to alphabet characters). -/
def b64Val (c : ℕ) : ℕ := b64Alphabet.indexOf c

/-- Platform btoa on a latin-1 string, modelled on its character codes:
standard base64, padding with the equals sign (code 61). -/
def btoa : List ℕ → List ℕ
  | [] => []
  | [b0] => [b64Char (b0 / 4), b64Char (b0 % 4 * 16), 61, 61]
  | [b0, b1] => [b64Char (b0 / 4), b64Char (b0 % 4 * 16 + b1 / 16), b64Char (b1 % 16 * 4), 61]
  | b0 :: b1 :: b2 :: rest =>
      b64Char (b0 / 4) :: b64Char (b0 % 4 * 16 + b1 / 16) ::
        b64Char (b1 % 16 * 4 + b2 / 64) :: b64Char (b2 % 64) :: btoa rest

/-- Platform atob, the inverse of btoa (modelled on the well-formed strings
btoa produces; on other inputs the browser function throws instead). -/
def atob : List ℕ → List ℕ
  | c0 :: c1 :: c2 :: c3 :: rest =>
      if c2 = 61 then [b64Val c0 * 4 + b64Val c1 / 16]
      else if c3 = 61 then
        [b64Val c0 * 4 + b64Val c1 / 16, b64Val c1 % 16 * 16 + b64Val c2 / 4]
      else
        (b64Val c0 * 4 + b64Val c1 / 16) :: (b64Val c1 % 16 * 16 + b64Val c2 / 4) ::
          (b64Val c2 % 4 * 64 + b64Val c3) :: atob rest
  | _ => []

/-! audioUtils.ts -/

/-- The clamp on line 12 of audioUtils.ts: Math.max(-1, Math.min(1, x)). -/
def clampSample (x : ℚ) : ℚ := max (-1) (min 1 x)

/-- The Int16Array element written by the encoding loop of createPcmBlob
(line 13): clamp, scale negatives by 32768 and non-negatives by 32767,
then ToInt16. -/
def pcmInt16 (x : ℚ) : ℤ :=
  toInt16 (if clampSample x < 0 then clampSample x * 32768 else clampSample x * 32767)

/-- Little-endian byte pair of a 16-bit signed integer, as laid out in the
Int16Array backing buffer (typed arrays use the platform byte order, which
is little-endian on every supported target). -/
def int16LEBytes (v : ℤ) : List ℕ :=
  [(v % 65536).toNat % 256, (v % 65536).toNat / 256]

/-- The bytes of int16.buffer built by createPcmBlob. -/
def createPcmBlobBytes (data : List ℚ) : List ℕ :=
  (data.map pcmInt16).flatMap int16LEBytes

/-- arrayBufferToBase64 (audioUtils.ts lines 37-45): build the latin-1
string whose character codes are the bytes (the identity in this
representation) and apply btoa. -/
def arrayBufferToBase64 (bytes : List ℕ) : List ℕ := btoa bytes

/-- The GenAI Blob value returned by createPcmBlob. -/
structure GenaiBlob where
  data : List ℕ
  mimeType : String
  deriving Repr, DecidableEq

/-- createPcmBlob (audioUtils.ts lines 7-19). -/
def createPcmBlob (data : List ℚ) : GenaiBlob :=
  { data := arrayBufferToBase64 (createPcmBlobBytes data),
    mimeType := "audio/pcm;rate=16000" }

/-- decodeBase64 (audioUtils.ts lines 24-32): atob, then read each
character code back out (the identity in this representation). -/
def decodeBase64 (base64 : List ℕ) : List ℕ := atob base64

/-- The Int16Array view taken by decodeAudioData: consecutive byte pairs
read as little-endian signed 16-bit integers. Byte values come from a
Uint8Array and are therefore below 256. -/
def bytesToInt16 : List ℕ → List ℤ
  | lo :: hi :: rest =>
      (if lo + 256 * hi < 32768 then ((lo + 256 * hi : ℕ) : ℤ)
       else ((lo + 256 * hi : ℕ) : ℤ) - 65536) :: bytesToInt16 rest
  | _ => []

/-- decodeAudioData (audioUtils.ts lines 51-69), with the returned
AudioBuffer modelled as its list of per-channel sample lists. Constructing
an Int16Array over a buffer whose byte length is not a multiple of 2
throws a RangeError, modelled as none. For a channel count that does not
divide the sample count, the fractional frameCount truncates to the
created buffer length and the one out-of-bounds write of the copy loop is
discarded, so integer floor division is the faithful model of the result.
Every call site passes the default channel count 1. -/
def decodeAudioData (data : List ℕ) (numChannels : ℕ) : Option (List (List ℚ)) :=
  if data.length % 2 ≠ 0 then none
  else
    some ((List.range numChannels).map (fun channel =>
      (List.range ((bytesToInt16 data).length / numChannels)).map (fun i =>
        (((bytesToInt16 data).getD (i * numChannels + channel) 0 : ℚ) / 32768))))

/-- Sum of squares accumulated by the loop of calculateRMS. -/
def sumSquares (data : List ℚ) : ℚ := data.foldl (fun sum x => sum + x * x) 0

/-- JS division as used by calculateRMS, where the only reachable
division by zero is 0 / 0 = NaN, modelled as none. -/
def jsDivOpt (a b : ℚ) : Option ℚ := if b = 0 then none else some (a / b)

/-- calculateRMS (audioUtils.ts lines 74-80): Math.sqrt(sum / length).
There is no emptiness guard in the source: an empty buffer computes
Math.sqrt(0 / 0) = NaN, modelled as none. -/
noncomputable def calculateRMS (data : List ℚ) : Option ℝ :=
  (jsDivOpt (sumSquares data) data.length).map (fun q : ℚ => Real.sqrt (q : ℝ))

/-- The bounds-checked read of downsampleTo16k: a negative or
out-of-range index reads undefined, which the jsOr chains treat exactly
like 0, so it is collapsed to 0 here. -/
def nthOr0 (input : List ℚ) (k : ℤ) : ℚ :=
  if 0 ≤ k then input.getD k.toNat 0 else 0

/-- downsampleTo16k (audioUtils.ts lines 85-118): linear interpolation
onto a 16000 Hz grid. Arithmetic is exact; the model is faithful for every
nonzero sample rate (at rate exactly 0 the JS code throws constructing a
Float32Array of infinite length, while field division by zero yields an
empty result here). -/
def downsampleTo16k (input : List ℚ) (inputSampleRate : ℚ) : List ℚ :=
  if inputSampleRate = 16000 then input
  else if input.length = 0 then []
  else if (⌈(input.length : ℚ) / (inputSampleRate / 16000)⌉ : ℤ) ≤ 0 then []
  else
    (List.range (⌈(input.length : ℚ) / (inputSampleRate / 16000)⌉ : ℤ).toNat).map (fun (i : ℕ) =>
      let idx : ℚ := (i : ℚ) * (inputSampleRate / 16000)
      let s1 := jsOr (nthOr0 input ⌊idx⌋) 0
      let s2 := jsOr (nthOr0 input ⌈idx⌉) (jsOr (nthOr0 input ⌊idx⌋) 0)
      s1 * (1 - (idx - ⌊idx⌋)) + s2 * (idx - ⌊idx⌋))

/-! useGeminiLive.ts: the playback scheduler.

An AudioBufferSourceNode is modelled by its scheduled start time, its
buffer duration, its detune AudioParam (current target value in cents,
together with the time constant of the last setTargetAtTime call, none
when the value was last assigned directly), and whether stop() has been
called on it. The hook state visible to the claims is the timeline cursor
nextStartTimeRef, the list of sources created so far (in creation order),
the active set audioSourcesRef (as the list of indices into that list),
and pitchRef. -/

structure Source where
  startTime : ℚ
  duration : ℚ
  detune : ℚ
  smoothTC : Option ℚ
  stopped : Bool
  deriving Repr, DecidableEq, Inhabited

structure SchedulerState where
  nextStartTime : ℚ
  sources : List Source
  active : List ℕ
  pitch : ℚ
  deriving Repr, DecidableEq, Inhabited

/-- The audio branch of the onmessage callback (useGeminiLive.ts lines
216-240) at the instant ctx.currentTime = now, for a decoded buffer of
the given duration: create a source whose initial detune is the stored
pitch, snap the cursor to now + 0.005 if it fell behind the clock, start
the source at the cursor, advance the cursor by exactly the buffer
duration, and add the source to the active set. -/
def onmessageAudioChunk (st : SchedulerState) (now duration : ℚ) : SchedulerState :=
  let start := if st.nextStartTime < now then now + 5 / 1000 else st.nextStartTime
  { nextStartTime := start + duration,
    sources := st.sources ++
      [{ startTime := start, duration := duration, detune := st.pitch,
         smoothTC := none, stopped := false }],
    active := st.active ++ [st.sources.length],
    pitch := st.pitch }

/-- The effect of src.stop(). -/
def stopSource (s : Source) : Source := { s with stopped := true }

/-- Apply f to the sources whose index (counted from i) lies in the
active set; a none result (an exception swallowed by the caller) leaves
the source unchanged. -/
def updateActiveFrom (f : Source → Option Source) (active : List ℕ) :
    ℕ → List Source → List Source
  | _, [] => []
  | i, s :: rest =>
      (if i ∈ active then (f s).getD s else s) :: updateActiveFrom f active (i + 1) rest

/-- Iteration over the active set, as done by forEach on audioSourcesRef. -/
def updateActive (f : Source → Option Source) (active : List ℕ)
    (sources : List Source) : List Source :=
  updateActiveFrom f active 0 sources

/-- The interruption branch of the onmessage callback (useGeminiLive.ts
lines 243-248) at ctx.currentTime = now: stop every source in the active
set, clear the set, and reset the cursor to currentTime with a falsy
fallback to 0. -/
def onmessageInterrupted (st : SchedulerState) (now : ℚ) : SchedulerState :=
  { nextStartTime := jsOr now 0,
    sources := updateActive (fun s => some (stopSource s)) st.active st.sources,
    active := [],
    pitch := st.pitch }

/-- detune.setTargetAtTime(cents, now, 0.1) on one source, re-targeting
the detune with a 0.1 s smoothing time constant; on a source that has
already stopped the update is modelled as throwing, which setPitch
swallows. -/
def retargetDetune (cents : ℚ) (s : Source) : Option Source :=
  if s.stopped then none else some { s with detune := cents, smoothTC := some (1 / 10) }

/-- setPitch (useGeminiLive.ts lines 32-46): store the new pitch for all
future sources, and re-target the detune of every source currently in the
active set; sources that have stopped are silently skipped by the
try/catch. -/
def setPitch (st : SchedulerState) (cents : ℚ) : SchedulerState :=
  { nextStartTime := st.nextStartTime,
    sources := updateActive (retargetDetune cents) st.active st.sources,
    active := st.active,
    pitch := cents }

/-- The inbound decode path applied to an outbound-encoded buffer: the
data field of createPcmBlob fed through decodeBase64 and decodeAudioData
with the mono channel count used at the call site. -/
def decodePipeline (l : List ℚ) : Option (List (List ℚ)) :=
  decodeAudioData (decodeBase64 ((createPcmBlob l).data)) 1

/-! Helper lemmas. -/

theorem b64_table : ∀ s : ℕ, s < 64 → b64Val (b64Char s) = s ∧ b64Char s ≠ 61 := by decide

theorem jsOr_zero (a : ℚ) : jsOr a 0 = a := by
  by_cases h : a = 0 <;> simp [jsOr, h]

theorem atob_btoa : ∀ (l : List ℕ), (∀ b ∈ l, b < 256) → atob (btoa l) = l
  | [], _ => rfl
  | [b0], h => by
      have hb0 : b0 < 256 := h b0 (by simp)
      obtain ⟨v0, n0⟩ := b64_table (b0 / 4) (by omega)
      obtain ⟨v1, n1⟩ := b64_table (b0 % 4 * 16) (by omega)
      simp [btoa, atob, v0, v1]
      omega
  | [b0, b1], h => by
      have hb0 : b0 < 256 := h b0 (by simp)
      have hb1 : b1 < 256 := h b1 (by simp)
      obtain ⟨v0, n0⟩ := b64_table (b0 / 4) (by omega)
      obtain ⟨v1, n1⟩ := b64_table (b0 % 4 * 16 + b1 / 16) (by omega)
      obtain ⟨v2, n2⟩ := b64_table (b1 % 16 * 4) (by omega)
      simp [btoa, atob, v0, v1, v2, n2]
      omega
  | b0 :: b1 :: b2 :: rest, h => by
      have hb0 : b0 < 256 := h b0 (by simp)
      have hb1 : b1 < 256 := h b1 (by simp)
      have hb2 : b2 < 256 := h b2 (by simp)
      have ih := atob_btoa rest (fun b hb => h b (by simp [hb]))
      obtain ⟨v0, n0⟩ := b64_table (b0 / 4) (by omega)
      obtain ⟨v1, n1⟩ := b64_table (b0 % 4 * 16 + b1 / 16) (by omega)
      obtain ⟨v2, n2⟩ := b64_table (b1 % 16 * 4 + b2 / 64) (by omega)
      obtain ⟨v3, n3⟩ := b64_table (b2 % 64) (by omega)
      simp [btoa, atob, v0, v1, v2, v3, n2, n3, ih]
      omega

theorem getD_append_self {α : Type} (l : List α) (a : α) (d : α) :
    (l ++ [a]).getD l.length d = a := by
  induction l with
  | nil => rfl
  | cons x xs ih => simp [List.getD_cons_succ, ih]

theorem updateActiveFrom_length (f : Source → Option Source) (active : List ℕ) :
    ∀ (i : ℕ) (l : List Source), (updateActiveFrom f active i l).length = l.length
  | _, [] => rfl
  | i, s :: rest => by
      simp [updateActiveFrom, updateActiveFrom_length f active (i + 1) rest]

theorem updateActiveFrom_getD (f : Source → Option Source) (active : List ℕ) :
    ∀ (i : ℕ) (l : List Source) (j : ℕ), j < l.length →
      (updateActiveFrom f active i l).getD j default =
        if (i + j) ∈ active then (f (l.getD j default)).getD (l.getD j default)
        else l.getD j default
  | _, [], j, h => by simp at h
  | i, s :: rest, 0, _ => by
      simp [updateActiveFrom, List.getD_cons_zero]
  | i, s :: rest, j + 1, h => by
      have ih := updateActiveFrom_getD f active (i + 1) rest j (by simpa using h)
      have harith : i + 1 + j = i + (j + 1) := by omega
      simpa [updateActiveFrom, List.getD_cons_succ, harith] using ih

theorem updateActive_length (f : Source → Option Source) (active : List ℕ)
    (sources : List Source) : (updateActive f active sources).length = sources.length :=
  updateActiveFrom_length f active 0 sources

theorem updateActive_getD (f : Source → Option Source) (active : List ℕ)
    (sources : List Source) (j : ℕ) (h : j < sources.length) :
    (updateActive f active sources).getD j default =
      if j ∈ active then (f (sources.getD j default)).getD (sources.getD j default)
      else sources.getD j default := by
  simpa using updateActiveFrom_getD f active 0 sources j h

theorem clampSample_mem (x : ℚ) : -1 ≤ clampSample x ∧ clampSample x ≤ 1 :=
  ⟨le_max_left _ _, max_le (by norm_num) (min_le_left _ _)⟩

theorem clampSample_eq {x : ℚ} (h1 : -1 ≤ x) (h2 : x ≤ 1) : clampSample x = x := by
  unfold clampSample
  rw [min_eq_right h2, max_eq_right h1]

theorem jsTrunc_range {q : ℚ} {lo hi : ℤ} (h1 : (lo : ℚ) ≤ q) (h2 : q ≤ (hi : ℚ)) :
    lo ≤ jsTrunc q ∧ jsTrunc q ≤ hi := by
  unfold jsTrunc
  split
  · constructor
    · exact_mod_cast le_trans h1 (Int.le_ceil q)
    · exact Int.ceil_le.mpr h2
  · constructor
    · exact Int.le_floor.mpr h1
    · exact_mod_cast le_trans (Int.floor_le q) h2

theorem toInt16_no_wrap {q : ℚ} (h1 : -32768 ≤ jsTrunc q) (h2 : jsTrunc q ≤ 32767) :
    toInt16 q = jsTrunc q := by
  unfold toInt16
  omega

theorem pcmInt16_eq (x : ℚ) :
    pcmInt16 x =
      jsTrunc (if clampSample x < 0 then clampSample x * 32768 else clampSample x * 32767) ∧
    -32768 ≤ pcmInt16 x ∧ pcmInt16 x ≤ 32767 := by
  obtain ⟨hlo, hhi⟩ := clampSample_mem x
  unfold pcmInt16
  by_cases h : clampSample x < 0
  · rw [if_pos h]
    have h1 : ((-32768 : ℤ) : ℚ) ≤ clampSample x * 32768 := by push_cast; linarith
    have h2 : clampSample x * 32768 ≤ ((32767 : ℤ) : ℚ) := by push_cast; linarith
    obtain ⟨r1, r2⟩ := jsTrunc_range h1 h2
    rw [toInt16_no_wrap r1 r2]
    exact ⟨rfl, r1, r2⟩
  · rw [if_neg h]
    have h1 : ((-32768 : ℤ) : ℚ) ≤ clampSample x * 32767 := by
      push_cast
      nlinarith [not_lt.mp h]
    have h2 : clampSample x * 32767 ≤ ((32767 : ℤ) : ℚ) := by push_cast; linarith
    obtain ⟨r1, r2⟩ := jsTrunc_range h1 h2
    rw [toInt16_no_wrap r1 r2]
    exact ⟨rfl, r1, r2⟩

theorem int16LEBytes_lt (v : ℤ) : ∀ b ∈ int16LEBytes v, b < 256 := by
  intro b hb
  have h0 : 0 ≤ v % 65536 := Int.emod_nonneg v (by norm_num)
  have h1 : v % 65536 < 65536 := Int.emod_lt_of_pos v (by norm_num)
  simp [int16LEBytes] at hb
  rcases hb with h | h <;> omega

theorem flatMap_int16LEBytes_length (vs : List ℤ) :
    (vs.flatMap int16LEBytes).length = 2 * vs.length := by
  induction vs with
  | nil => rfl
  | cons v rest ih => simp [int16LEBytes, ih]; omega

theorem bytesToInt16_flatMap :
    ∀ (vs : List ℤ), (∀ v ∈ vs, -32768 ≤ v ∧ v ≤ 32767) →
      bytesToInt16 (vs.flatMap int16LEBytes) = vs
  | [], _ => rfl
  | v :: rest, h => by
      obtain ⟨hv1, hv2⟩ := h v (by simp)
      have ih := bytesToInt16_flatMap rest (fun w hw => h w (by simp [hw]))
      have h0 : 0 ≤ v % 65536 := Int.emod_nonneg v (by norm_num)
      have h1 : v % 65536 < 65536 := Int.emod_lt_of_pos v (by norm_num)
      have step : (v :: rest).flatMap int16LEBytes =
          (v % 65536).toNat % 256 :: ((v % 65536).toNat / 256 :: rest.flatMap int16LEBytes) := by
        simp [int16LEBytes]
      rw [step]
      simp only [bytesToInt16, ih, List.cons.injEq, and_true]
      split <;> omega

theorem createPcmBlobBytes_lt (l : List ℚ) : ∀ b ∈ createPcmBlobBytes l, b < 256 := by
  intro b hb
  simp only [createPcmBlobBytes, List.mem_flatMap, List.mem_map] at hb
  obtain ⟨v, ⟨x, _, hx⟩, hbv⟩ := hb
  exact int16LEBytes_lt v b hbv

theorem bytesToInt16_createPcm (l : List ℚ) :
    bytesToInt16 (createPcmBlobBytes l) = l.map pcmInt16 := by
  unfold createPcmBlobBytes
  apply bytesToInt16_flatMap
  intro v hv
  simp only [List.mem_map] at hv
  obtain ⟨x, _, hx⟩ := hv
  exact hx ▸ (pcmInt16_eq x).2

theorem createPcmBlobBytes_length (l : List ℚ) :
    (createPcmBlobBytes l).length = 2 * l.length := by
  unfold createPcmBlobBytes
  rw [flatMap_int16LEBytes_length]
  simp

theorem flatMap_of_map {α β γ : Type} (l : List α) (f : α → β) (g : β → List γ) :
    (l.map f).flatMap g = l.flatMap (fun x => g (f x)) := by
  induction l with
  | nil => rfl
  | cons x xs ih => simp [ih]

theorem downsampleTo16k_length {input : List ℚ} {rate : ℚ} (hne : rate ≠ 16000)
    (hpos : 0 < rate) :
    (downsampleTo16k input rate).length = (⌈(input.length : ℚ) / (rate / 16000)⌉).toNat := by
  unfold downsampleTo16k
  rw [if_neg hne]
  by_cases h0 : input.length = 0
  · rw [if_pos h0]
    simp [h0]
  · rw [if_neg h0]
    have hlen : (0 : ℚ) < (input.length : ℚ) := by
      have := Nat.pos_of_ne_zero h0
      exact_mod_cast this
    have hr : (0 : ℚ) < rate / 16000 := by positivity
    have hc : 0 < ⌈(input.length : ℚ) / (rate / 16000)⌉ := Int.ceil_pos.mpr (div_pos hlen hr)
    rw [if_neg (by omega)]
    simp

/-! Claim theorems. -/

/-- C7: for every input buffer, when the input sample rate equals the fixed
16000 Hz target rate, downsampleTo16k returns the input unchanged:
identical values and identical length. -/
theorem downsampleTo16k_identity (input : List ℚ) : downsampleTo16k input 16000 = input := by
  simp [downsampleTo16k]

/-- C5 (code bug): on the malformed 3-byte buffer with the mono channel
count used at every call site the decoder does not truncate to one whole
16-bit sample; the Int16Array construction over an odd-length buffer
throws a RangeError (none), whereas an even 2-byte buffer decodes to one
sample as normal. -/
theorem decodeAudioData_odd_length_throws :
    decodeAudioData [0, 0, 0] 1 = none ∧ decodeAudioData [0, 0] 1 = some [[0]] := by
  constructor
  · rfl
  · simp [decodeAudioData, bytesToInt16, List.range_succ]

/-- C4: createPcmBlob tags the blob with the fixed mime/rate string, wraps
the packed bytes in the text-safe base64 encoding from which decodeBase64
recovers exactly the bytes, and those bytes are the little-endian pairs of
the 16-bit signed integer obtained per sample by clamping to [-1, 1] and
scaling negatives by 32768 and non-negatives by 32767 (truncating toward
zero, always inside the 16-bit signed range so the ToInt16 wrap never
fires). -/
theorem createPcmBlob_spec (d : List ℚ) :
    (createPcmBlob d).mimeType = "audio/pcm;rate=16000" ∧
    decodeBase64 ((createPcmBlob d).data) = createPcmBlobBytes d ∧
    createPcmBlobBytes d = d.flatMap (fun s => int16LEBytes (pcmInt16 s)) ∧
    ∀ s : ℚ,
      pcmInt16 s =
        jsTrunc (if clampSample s < 0 then clampSample s * 32768 else clampSample s * 32767) ∧
      -32768 ≤ pcmInt16 s ∧ pcmInt16 s ≤ 32767 := by
  refine ⟨rfl, atob_btoa _ (createPcmBlobBytes_lt d), ?_, fun s => pcmInt16_eq s⟩
  unfold createPcmBlobBytes
  exact flatMap_of_map d pcmInt16 int16LEBytes

/-- C8: for every input buffer and nonzero input rate different from the
16000 Hz target, the output length is the ceiling of the input length
divided by the rate ratio; 300 samples at 48000 Hz yield exactly 100; the
empty input yields the empty output for every rate. -/
theorem downsampleTo16k_length_spec :
    (∀ (input : List ℚ) (rate : ℚ), rate ≠ 16000 → 0 < rate →
      (downsampleTo16k input rate).length = (⌈(input.length : ℚ) / (rate / 16000)⌉).toNat) ∧
    (∀ input : List ℚ, input.length = 300 → (downsampleTo16k input 48000).length = 100) ∧
    (∀ rate : ℚ, downsampleTo16k [] rate = []) := by
  refine ⟨fun input rate hne hpos => downsampleTo16k_length hne hpos, ?_, ?_⟩
  · intro input hlen
    rw [downsampleTo16k_length (by norm_num) (by norm_num), hlen]
    rw [show ((300 : ℕ) : ℚ) / (48000 / 16000) = ((100 : ℤ) : ℚ) by norm_num]
    rw [Int.ceil_intCast]
    rfl
  · intro rate
    unfold downsampleTo16k
    split
    · rfl
    · simp

/-- C8 witness: a 3-sample buffer at 48000 Hz has output length
ceil(3 / 3) = 1. -/
theorem downsampleTo16k_length_spec_witness :
    (48000 : ℚ) ≠ 16000 ∧ (0 : ℚ) < 48000 ∧
    (downsampleTo16k [0, 0, 0] 48000).length =
      (⌈(([0, 0, 0] : List ℚ).length : ℚ) / (48000 / 16000)⌉).toNat :=
  ⟨by norm_num, by norm_num,
    downsampleTo16k_length_spec.1 [0, 0, 0] 48000 (by norm_num) (by norm_num)⟩

/-- C1: when an inbound message signals interruption, every source in the
active set receives stop(), the active set becomes empty, and the timeline
cursor is reset to the output device clock at that moment; in a
well-formed state (active indices point at created sources) no source from
before the interruption remains in the active set or left playing. -/
theorem onmessageInterrupted_spec (st : SchedulerState) (now : ℚ)
    (hwf : ∀ i ∈ st.active, i < st.sources.length) :
    (onmessageInterrupted st now).active = [] ∧
    (onmessageInterrupted st now).nextStartTime = now ∧
    (onmessageInterrupted st now).sources.length = st.sources.length ∧
    ∀ i ∈ st.active, ((onmessageInterrupted st now).sources.getD i default).stopped = true := by
  refine ⟨rfl, jsOr_zero now, updateActive_length _ _ _, fun i hi => ?_⟩
  have hupd := updateActive_getD (fun s => some (stopSource s)) st.active st.sources i (hwf i hi)
  have hsrc : (onmessageInterrupted st now).sources =
      updateActive (fun s => some (stopSource s)) st.active st.sources := rfl
  rw [hsrc, hupd, if_pos hi]
  rfl

/-- C1 witness: after three scheduled sources, interruption at device time
7/2 empties the active set, stops all three and resets the cursor. -/
theorem onmessageInterrupted_spec_witness :
    (∀ i ∈ (⟨3, [⟨0, 1, 0, none, false⟩, ⟨1, 1, 0, none, false⟩, ⟨2, 1, 0, none, false⟩],
        [0, 1, 2], 0⟩ : SchedulerState).active,
      i < (⟨3, [⟨0, 1, 0, none, false⟩, ⟨1, 1, 0, none, false⟩, ⟨2, 1, 0, none, false⟩],
        [0, 1, 2], 0⟩ : SchedulerState).sources.length) ∧
    ((onmessageInterrupted ⟨3, [⟨0, 1, 0, none, false⟩, ⟨1, 1, 0, none, false⟩,
        ⟨2, 1, 0, none, false⟩], [0, 1, 2], 0⟩ (7 / 2)).active = [] ∧
     (onmessageInterrupted ⟨3, [⟨0, 1, 0, none, false⟩, ⟨1, 1, 0, none, false⟩,
        ⟨2, 1, 0, none, false⟩], [0, 1, 2], 0⟩ (7 / 2)).nextStartTime = 7 / 2 ∧
     (onmessageInterrupted ⟨3, [⟨0, 1, 0, none, false⟩, ⟨1, 1, 0, none, false⟩,
        ⟨2, 1, 0, none, false⟩], [0, 1, 2], 0⟩ (7 / 2)).sources.length = 3 ∧
     ∀ i ∈ ([0, 1, 2] : List ℕ),
       ((onmessageInterrupted ⟨3, [⟨0, 1, 0, none, false⟩, ⟨1, 1, 0, none, false⟩,
          ⟨2, 1, 0, none, false⟩], [0, 1, 2], 0⟩ (7 / 2)).sources.getD i default).stopped = true) :=
  ⟨by decide,
    onmessageInterrupted_spec
      ⟨3, [⟨0, 1, 0, none, false⟩, ⟨1, 1, 0, none, false⟩, ⟨2, 1, 0, none, false⟩],
        [0, 1, 2], 0⟩ (7 / 2) (by decide)⟩

theorem onmessageAudioChunk_new_source (s : SchedulerState) (n d : ℚ) :
    (onmessageAudioChunk s n d).sources.getD s.sources.length default =
      { startTime := if s.nextStartTime < n then n + 5 / 1000 else s.nextStartTime,
        duration := d, detune := s.pitch, smoothTC := none, stopped := false } :=
  getD_append_self s.sources _ default

theorem onmessageAudioChunk_new_start (s : SchedulerState) (n d : ℚ) :
    ((onmessageAudioChunk s n d).sources.getD s.sources.length default).startTime =
      if s.nextStartTime < n then n + 5 / 1000 else s.nextStartTime := by
  rw [onmessageAudioChunk_new_source]

theorem onmessageAudioChunk_next (s : SchedulerState) (n d : ℚ) :
    (onmessageAudioChunk s n d).nextStartTime =
      (if s.nextStartTime < n then n + 5 / 1000 else s.nextStartTime) + d := rfl

theorem onmessageAudioChunk_sources_length (s : SchedulerState) (n d : ℚ) :
    (onmessageAudioChunk s n d).sources.length = s.sources.length + 1 := by
  simp [onmessageAudioChunk]

/-- C2: every scheduled start time is at least the device clock read at the
moment of scheduling, the cursor is snapped to clock plus 5 ms exactly when
it has fallen behind, the cursor after scheduling is the scheduled start
plus the buffer duration, and a following buffer scheduled with no
underrun starts exactly at the previous start time plus the previous
duration. -/
theorem onmessageAudioChunk_timing (st : SchedulerState) (now dur now2 dur2 : ℚ) :
    now ≤ ((onmessageAudioChunk st now dur).sources.getD st.sources.length default).startTime ∧
    (onmessageAudioChunk st now dur).nextStartTime =
      ((onmessageAudioChunk st now dur).sources.getD st.sources.length default).startTime +
        dur ∧
    (st.nextStartTime < now →
      ((onmessageAudioChunk st now dur).sources.getD st.sources.length default).startTime =
        now + 5 / 1000) ∧
    (¬ (onmessageAudioChunk st now dur).nextStartTime < now2 →
      ((onmessageAudioChunk (onmessageAudioChunk st now dur) now2 dur2).sources.getD
          (st.sources.length + 1) default).startTime =
        ((onmessageAudioChunk st now dur).sources.getD st.sources.length default).startTime +
          dur) := by
  refine ⟨?_, ?_, ?_, ?_⟩
  · rw [onmessageAudioChunk_new_start]
    split
    · linarith
    · linarith [not_lt.mp (by assumption : ¬ st.nextStartTime < now)]
  · rw [onmessageAudioChunk_next, onmessageAudioChunk_new_start]
  · intro h
    rw [onmessageAudioChunk_new_start, if_pos h]
  · intro h
    have e1 : st.sources.length + 1 = (onmessageAudioChunk st now dur).sources.length :=
      (onmessageAudioChunk_sources_length st now dur).symm
    rw [e1, onmessageAudioChunk_new_start, if_neg h, onmessageAudioChunk_next,
      onmessageAudioChunk_new_start]

/-- C2 witness: scheduling at clock 1 with an idle cursor snaps to
1 + 5/1000; a second buffer at clock 2 (no underrun) starts exactly at the
first start plus the first duration. -/
theorem onmessageAudioChunk_timing_witness :
    ¬ (onmessageAudioChunk ⟨0, [], [], 0⟩ 1 2).nextStartTime < 2 ∧
    ((onmessageAudioChunk (onmessageAudioChunk ⟨0, [], [], 0⟩ 1 2) 2 1).sources.getD 1
        default).startTime =
      ((onmessageAudioChunk ⟨0, [], [], 0⟩ 1 2).sources.getD 0 default).startTime + 2 := by
  have hno : ¬ (onmessageAudioChunk ⟨0, [], [], 0⟩ 1 2).nextStartTime < 2 := by
    rw [onmessageAudioChunk_next]
    norm_num
  exact ⟨hno, ((onmessageAudioChunk_timing ⟨0, [], [], 0⟩ 1 2 2 1).2.2.2) hno⟩

/-- C9: setPitch stores the new pitch value (so the next scheduled source
receives it directly as its initial detune with no smoothing), re-targets
the detune of every un-stopped source in the active set with the 0.1 s
smoothing constant, silently skips sources that already stopped, leaves
sources outside the active set untouched, and modifies neither the active
set nor the timeline cursor. -/
theorem setPitch_spec (st : SchedulerState) (cents : ℚ)
    (hwf : ∀ i ∈ st.active, i < st.sources.length) :
    (setPitch st cents).pitch = cents ∧
    (setPitch st cents).active = st.active ∧
    (setPitch st cents).nextStartTime = st.nextStartTime ∧
    (setPitch st cents).sources.length = st.sources.length ∧
    (∀ i ∈ st.active, (st.sources.getD i default).stopped = false →
      (setPitch st cents).sources.getD i default =
        { st.sources.getD i default with detune := cents, smoothTC := some (1 / 10) }) ∧
    (∀ i ∈ st.active, (st.sources.getD i default).stopped = true →
      (setPitch st cents).sources.getD i default = st.sources.getD i default) ∧
    (∀ i, i < st.sources.length → i ∉ st.active →
      (setPitch st cents).sources.getD i default = st.sources.getD i default) ∧
    (∀ now dur,
      ((onmessageAudioChunk (setPitch st cents) now dur).sources.getD st.sources.length
          default).detune = cents ∧
      ((onmessageAudioChunk (setPitch st cents) now dur).sources.getD st.sources.length
          default).smoothTC = none) := by
  have hsrc : (setPitch st cents).sources =
      updateActive (retargetDetune cents) st.active st.sources := rfl
  have hlen : (setPitch st cents).sources.length = st.sources.length :=
    updateActive_length _ _ _
  refine ⟨rfl, rfl, rfl, hlen, ?_, ?_, ?_, ?_⟩
  · intro i hi hstop
    rw [hsrc, updateActive_getD _ _ _ _ (hwf i hi), if_pos hi]
    unfold retargetDetune
    rw [hstop]
    simp
    simpa [List.getD] using hstop
  · intro i hi hstop
    rw [hsrc, updateActive_getD _ _ _ _ (hwf i hi), if_pos hi]
    unfold retargetDetune
    rw [hstop]
    simp
  · intro i hlt hni
    rw [hsrc, updateActive_getD _ _ _ _ hlt, if_neg hni]
  · intro now dur
    have e1 : st.sources.length = (setPitch st cents).sources.length := hlen.symm
    rw [e1, onmessageAudioChunk_new_source]
    exact ⟨rfl, rfl⟩

/-- C9 witness: with one playing and one stopped source both in the active
set, setPitch 250 re-targets the playing one with the smoothing constant,
skips the stopped one, and stores 250 as the pitch. -/
theorem setPitch_spec_witness :
    (∀ i ∈ (⟨4, [⟨0, 2, 100, none, false⟩, ⟨2, 2, 100, none, true⟩], [0, 1], 100⟩ :
        SchedulerState).active,
      i < (⟨4, [⟨0, 2, 100, none, false⟩, ⟨2, 2, 100, none, true⟩], [0, 1], 100⟩ :
        SchedulerState).sources.length) ∧
    (setPitch ⟨4, [⟨0, 2, 100, none, false⟩, ⟨2, 2, 100, none, true⟩], [0, 1], 100⟩
        250).pitch = 250 ∧
    (setPitch ⟨4, [⟨0, 2, 100, none, false⟩, ⟨2, 2, 100, none, true⟩], [0, 1], 100⟩
        250).sources.getD 0 default = ⟨0, 2, 250, some (1 / 10), false⟩ ∧
    (setPitch ⟨4, [⟨0, 2, 100, none, false⟩, ⟨2, 2, 100, none, true⟩], [0, 1], 100⟩
        250).sources.getD 1 default = ⟨2, 2, 100, none, true⟩ := by
  have h := setPitch_spec
    ⟨4, [⟨0, 2, 100, none, false⟩, ⟨2, 2, 100, none, true⟩], [0, 1], 100⟩ 250 (by decide)
  exact ⟨by decide, h.1, h.2.2.2.2.1 0 (by decide) rfl, h.2.2.2.2.2.1 1 (by decide) rfl⟩

theorem nthOr0_bound {input : List ℚ} {lo hi : ℚ} (hlo : lo ≤ 0) (hhi : 0 ≤ hi)
    (hin : ∀ x ∈ input, lo ≤ x ∧ x ≤ hi) (k : ℤ) :
    lo ≤ nthOr0 input k ∧ nthOr0 input k ≤ hi := by
  unfold nthOr0
  split
  · by_cases hk : k.toNat < input.length
    · rw [List.getD_eq_getElem input 0 hk]
      exact hin _ (List.getElem_mem hk)
    · rw [List.getD_eq_default input 0 (not_lt.mp hk)]
      exact ⟨hlo, hhi⟩
  · exact ⟨hlo, hhi⟩

theorem jsOr_bound {a b lo hi : ℚ} (ha : lo ≤ a ∧ a ≤ hi) (hb : lo ≤ b ∧ b ≤ hi) :
    lo ≤ jsOr a b ∧ jsOr a b ≤ hi := by
  unfold jsOr
  split
  · exact hb
  · exact ha

/-- C10: every resampler output sample is a convex combination, with weight
the fractional part of the source index, of values that are each an input
sample or 0; hence it lies between any lower bound of the inputs that is
at most 0 and any upper bound that is at least 0 — in particular, inputs
all in [-1, 1] give outputs all in [-1, 1]. -/
theorem downsampleTo16k_bounded (input : List ℚ) (rate lo hi : ℚ) (_hrate : rate ≠ 0)
    (hlo : lo ≤ 0) (hhi : 0 ≤ hi) (hin : ∀ x ∈ input, lo ≤ x ∧ x ≤ hi) :
    ∀ y ∈ downsampleTo16k input rate, lo ≤ y ∧ y ≤ hi := by
  intro y hy
  unfold downsampleTo16k at hy
  split at hy
  · exact hin y hy
  · split at hy
    · simp at hy
    · split at hy
      · simp at hy
      · obtain ⟨i, hmem, heq⟩ := List.mem_map.mp hy
        dsimp only at heq
        subst heq
        have hfl := nthOr0_bound hlo hhi hin ⌊(i : ℚ) * (rate / 16000)⌋
        have hce := nthOr0_bound hlo hhi hin ⌈(i : ℚ) * (rate / 16000)⌉
        have hs1 := jsOr_bound hfl ⟨hlo, hhi⟩
        have hs2 := jsOr_bound hce hs1
        have hw0 : (0 : ℚ) ≤ (i : ℚ) * (rate / 16000) - ⌊(i : ℚ) * (rate / 16000)⌋ := by
          linarith [Int.floor_le ((i : ℚ) * (rate / 16000))]
        have hw1 : (i : ℚ) * (rate / 16000) - ⌊(i : ℚ) * (rate / 16000)⌋ ≤ 1 := by
          linarith [Int.lt_floor_add_one ((i : ℚ) * (rate / 16000))]
        constructor <;>
          nlinarith [hs1.1, hs1.2, hs2.1, hs2.2, hw0, hw1]

/-- C10 witness: a buffer with samples in [-1, 1] resampled from 48000 Hz
stays within [-1, 1]. -/
theorem downsampleTo16k_bounded_witness :
    ((48000 : ℚ) ≠ 0 ∧ (-1 : ℚ) ≤ 0 ∧ (0 : ℚ) ≤ 1 ∧
      (∀ x ∈ ([1 / 2, -1] : List ℚ), -1 ≤ x ∧ x ≤ 1)) ∧
    (∀ y ∈ downsampleTo16k [1 / 2, -1] 48000, -1 ≤ y ∧ y ≤ 1) :=
  ⟨⟨by norm_num, by norm_num, by norm_num,
      by intro x hx; simp at hx; rcases hx with rfl | rfl <;> norm_num⟩,
    downsampleTo16k_bounded [1 / 2, -1] 48000 (-1) 1 (by norm_num) (by norm_num) (by norm_num)
      (by intro x hx; simp at hx; rcases hx with rfl | rfl <;> norm_num)⟩

theorem range_map_getD (vs : List ℤ) (g : ℤ → ℚ) :
    (List.range vs.length).map (fun i => g (vs.getD i 0)) = vs.map g := by
  apply List.ext_getElem
  · simp
  · intro i h1 h2
    simp only [List.getElem_map, List.getElem_range]
    rw [List.getD_eq_getElem]

theorem decodePipeline_eq (l : List ℚ) :
    decodePipeline l = some [l.map (fun s => (pcmInt16 s : ℚ) / 32768)] := by
  unfold decodePipeline decodeBase64
  have h1 : (createPcmBlob l).data = btoa (createPcmBlobBytes l) := rfl
  rw [h1, atob_btoa _ (createPcmBlobBytes_lt l)]
  unfold decodeAudioData
  rw [if_neg (by rw [createPcmBlobBytes_length]; omega)]
  rw [bytesToInt16_createPcm]
  congr 1
  rw [show List.range 1 = [0] from rfl]
  simp only [List.map_cons, List.map_nil, Nat.div_one, Nat.mul_one, Nat.add_zero]
  rw [range_map_getD (l.map pcmInt16) (fun v => (v : ℚ) / 32768), List.map_map]
  rfl

theorem pcmInt16_quantization {s : ℚ} (h1 : -1 ≤ s) (h2 : s ≤ 1) :
    |(pcmInt16 s : ℚ) / 32768 - s| < 2 / 32768 := by
  have hcl : clampSample s = s := clampSample_eq h1 h2
  have heq := (pcmInt16_eq s).1
  rw [hcl] at heq
  by_cases hneg : s < 0
  · rw [if_pos hneg] at heq
    have hq : s * 32768 < 0 := by nlinarith
    unfold jsTrunc at heq
    rw [if_pos hq] at heq
    rw [heq, abs_lt]
    have c1 : s * 32768 ≤ (⌈s * 32768⌉ : ℚ) := Int.le_ceil _
    have c2 : (⌈s * 32768⌉ : ℚ) < s * 32768 + 1 := Int.ceil_lt_add_one _
    constructor <;> linarith
  · rw [if_neg hneg] at heq
    have hq : ¬ s * 32767 < 0 := by nlinarith [not_lt.mp hneg]
    unfold jsTrunc at heq
    rw [if_neg hq] at heq
    rw [heq, abs_lt]
    have c1 : (⌊s * 32767⌋ : ℚ) ≤ s * 32767 := Int.floor_le _
    have c2 : s * 32767 < (⌊s * 32767⌋ : ℚ) + 1 := Int.lt_floor_add_one _
    constructor <;> linarith [not_lt.mp hneg, h2]

/-- C3 (counterexample): the sample 65533/65536 (representable exactly in
the source's float arithmetic) encodes to the 16-bit value 32765 and
decodes to 32765/32768, an error of 3/65536, which exceeds the claimed
1/32768 quantization bound. -/
theorem decodePipeline_cex :
    decodePipeline [65533 / 65536] = some [[32765 / 32768]] ∧
    ¬ |(32765 / 32768 : ℚ) - 65533 / 65536| ≤ 1 / 32768 := by
  constructor
  · rw [decodePipeline_eq]
    have hp : pcmInt16 (65533 / 65536) = 32765 := by
      unfold pcmInt16
      rw [clampSample_eq (by norm_num) (by norm_num)]
      rw [if_neg (by norm_num)]
      rw [show (65533 / 65536 : ℚ) * 32767 = 2147319811 / 65536 by norm_num]
      unfold toInt16 jsTrunc
      rw [if_neg (by norm_num)]
      rw [show ⌊(2147319811 / 65536 : ℚ)⌋ = 32765 from by rw [Int.floor_eq_iff]; norm_num]
      decide
    simp only [List.map_cons, List.map_nil, hp]
    norm_num
  · rw [show (32765 / 32768 : ℚ) - 65533 / 65536 = -(3 / 65536) by norm_num]
    rw [abs_neg, abs_of_nonneg (by norm_num)]
    norm_num

/-- C3 (amended): encoding then decoding a float buffer with samples in
[-1, 1] yields the mono channel whose k-th sample is the quantized k-th
original, and every decoded sample is within 2/32768 (strictly) of the
original — not 1/32768: truncation toward zero after the 32767 scaling can
err by up to just under 2/32768 on non-negative samples, while negative
samples stay within 1/32768. -/
theorem decodePipeline_quantization (l : List ℚ) (h : ∀ s ∈ l, -1 ≤ s ∧ s ≤ 1) :
    decodePipeline l = some [l.map (fun s => (pcmInt16 s : ℚ) / 32768)] ∧
    ∀ s ∈ l, |(pcmInt16 s : ℚ) / 32768 - s| < 2 / 32768 :=
  ⟨decodePipeline_eq l, fun s hs => pcmInt16_quantization (h s hs).1 (h s hs).2⟩

/-- C3 witness: the one-sample buffer 1/2 satisfies the range hypothesis
and round-trips within the amended bound. -/
theorem decodePipeline_quantization_witness :
    (∀ s ∈ ([1 / 2] : List ℚ), -1 ≤ s ∧ s ≤ 1) ∧
    decodePipeline [1 / 2] =
      some [([1 / 2] : List ℚ).map (fun s => (pcmInt16 s : ℚ) / 32768)] ∧
    ∀ s ∈ ([1 / 2] : List ℚ), |(pcmInt16 s : ℚ) / 32768 - s| < 2 / 32768 := by
  have hmem : ∀ s ∈ ([1 / 2] : List ℚ), -1 ≤ s ∧ s ≤ 1 := by
    intro s hs
    rw [List.mem_singleton] at hs
    subst hs
    norm_num
  exact ⟨hmem, (decodePipeline_quantization [1 / 2] hmem).1,
    (decodePipeline_quantization [1 / 2] hmem).2⟩

theorem sumSquares_eq (l : List ℚ) : sumSquares l = (l.map (fun x => x * x)).sum := by
  rw [List.sum_eq_foldl, List.foldl_map]
  rfl

theorem sumSquares_replicate (n : ℕ) (v : ℚ) :
    sumSquares (List.replicate n v) = n * (v * v) := by
  rw [sumSquares_eq, List.map_replicate, List.sum_replicate, nsmul_eq_mul]

theorem calculateRMS_eq_sqrt {data : List ℚ} (h : data ≠ []) :
    calculateRMS data = some (Real.sqrt ((sumSquares data : ℝ) / (data.length : ℝ))) := by
  unfold calculateRMS jsDivOpt
  have hlen : ((data.length : ℕ) : ℚ) ≠ 0 := by
    have := List.length_pos.mpr h
    exact Nat.cast_ne_zero.mpr (by omega)
  rw [if_neg hlen, Option.map_some']
  congr 1
  rw [Rat.cast_div]
  norm_num

theorem calculateRMS_replicate (n : ℕ) (v : ℚ) (hn : 0 < n) :
    calculateRMS (List.replicate n v) = some |(v : ℝ)| := by
  have hne : List.replicate n v ≠ [] := List.ne_nil_of_length_pos (by simpa using hn)
  rw [calculateRMS_eq_sqrt hne]
  congr 1
  rw [sumSquares_replicate, List.length_replicate]
  have hcast : ((((n : ℚ)) * (v * v) : ℚ) : ℝ) / ((n : ℕ) : ℝ) = (v : ℝ) ^ 2 := by
    have hnn : (n : ℝ) ≠ 0 := Nat.cast_ne_zero.mpr (by omega)
    push_cast
    field_simp
    ring
  rw [hcast, Real.sqrt_sq_eq_abs]

/-- C6 (counterexample): on the empty buffer calculateRMS computes
Math.sqrt(0 / 0) = NaN (modelled none), not the claimed exact 0. -/
theorem calculateRMS_empty_cex :
    calculateRMS [] = none ∧ calculateRMS [] ≠ some 0 := by
  have h : calculateRMS [] = none := by simp [calculateRMS, jsDivOpt, sumSquares]
  exact ⟨h, by rw [h]; exact fun hc => Option.noConfusion hc⟩

/-- C6 (amended): for every non-empty buffer calculateRMS returns the
square root of the mean of squares — a constant buffer of value v yields
|v| and an all-zero buffer yields 0 — but for the empty buffer the source
has no guard and computes sqrt(0/0) = NaN, not 0. -/
theorem calculateRMS_spec :
    (∀ data : List ℚ, data ≠ [] →
      calculateRMS data = some (Real.sqrt ((sumSquares data : ℝ) / (data.length : ℝ)))) ∧
    (∀ (n : ℕ) (v : ℚ), 0 < n → calculateRMS (List.replicate n v) = some |(v : ℝ)|) ∧
    (∀ n : ℕ, 0 < n → calculateRMS (List.replicate n (0 : ℚ)) = some 0) ∧
    calculateRMS [] = none := by
  refine ⟨fun data h => calculateRMS_eq_sqrt h, fun n v hn => calculateRMS_replicate n v hn,
    fun n hn => ?_, by simp [calculateRMS, jsDivOpt, sumSquares]⟩
  have h0 := calculateRMS_replicate n 0 hn
  simpa using h0

/-- C6 witness: the constant buffer of two samples of value -3 has RMS
|-3| = 3. -/
theorem calculateRMS_spec_witness :
    0 < 2 ∧ calculateRMS (List.replicate 2 (-3 : ℚ)) = some |((-3 : ℚ) : ℝ)| :=
  ⟨by norm_num, calculateRMS_spec.2.1 2 (-3) (by norm_num)⟩

end VoiceChanger
